import Mathlib

/-!
Shallow embedding of the ragsno document ingestion / retrieval pipeline.

The embedding covers:
* the chunk data model (one database row per chunk, with the metadata
  fields the claims depend on),
* the store operations behind the documents endpoint
  (`getByDocumentId`, `deleteByDocumentId`, the DELETE handler),
* the ingestion POST handler (file upload, text extraction, the blank-text
  guard, chunk splitting, and the sequential embed-and-insert loop),
* the retrieval POST handler (query embedding, vector search, answer
  generation),
* the defensive percent-decoding helper `safeDecodeURIComponent`.

External services (object storage, the embedding model, the generation
model, the PDF and DOCX parsers) are modelled as explicit oracle
parameters; handler executions additionally return the list of external
calls they attempted, in order, so that claims about "service X is never
invoked" become statements about that trace.
-/

/-- Metadata stored with every chunk row: the fields of the `metadata`
JSON object that the verified claims depend on (`document_id`,
`chunk_index`, `total_chunks`, `file_path`).  The remaining descriptive
fields (file name, size, upload date, url) play no role in any claim. -/
structure ChunkMetadata where
  document_id : String
  chunk_index : Nat
  total_chunks : Nat
  file_path : Option String
deriving DecidableEq

/-- One row of the `documents` table: chunk `content` plus its `metadata`.
The embedding-vector column is omitted because no claim depends on its
value. -/
structure Row where
  content : String
  metadata : ChunkMetadata
deriving DecidableEq

/-- Modelled from the spec: the chunker used by the ingestion route is the
third-party `RecursiveCharacterTextSplitter` (library code, not part of
this repository).  The spec describes it as a sliding window producing
maximal slices of at most `size` characters, where each chunk after the
first begins `overlap` characters before the end of the previous chunk's
source span, i.e. consecutive chunk start offsets differ by
`step = size - overlap`.  The fuel argument bounds the recursion and is
instantiated with the length of the text. -/
def chunkGo (size step : Nat) : Nat → List Char → List (List Char)
  | 0, _ => []
  | fuel + 1, l =>
    if l = [] then []
    else if l.length ≤ size then [l]
    else l.take size :: chunkGo size step fuel (l.drop step)

/-- Chunks of a string, as character lists (see `chunkGo`). -/
def chunksOf (size overlap : Nat) (s : String) : List (List Char) :=
  chunkGo size (size - overlap) s.data.length s.data

/-- Chunks of a string, as strings; models `textSplitter.splitText(text)`
with the route's fixed configuration when applied at `size = 800`,
`overlap = 100`. -/
def chunkText (size overlap : Nat) (s : String) : List String :=
  (chunksOf size overlap s).map String.mk

/-- Insertion step of the insertion sort used to model the store's
ORDER BY clause. -/
def insertSorted (le : α → α → Bool) (a : α) : List α → List α
  | [] => [a]
  | b :: l => if le a b then a :: b :: l else b :: insertSorted le a l

/-- Insertion sort by a boolean comparison; models the ordering the
database applies to query results. -/
def sortBy (le : α → α → Bool) : List α → List α
  | [] => []
  | a :: l => insertSorted le a (sortBy le l)

/-- Sort key used by the GET handler's query
`.order('metadata->>chunk_index', { ascending: true })`: the Postgres
`->>` operator extracts the JSON number `chunk_index` as TEXT, so the
key is the decimal string rendering of the index, compared as a string. -/
def chunkIndexKey (r : Row) : String :=
  Nat.repr r.metadata.chunk_index

/-- Lexicographic comparison of character lists by code point. -/
def charListLt : List Char → List Char → Bool
  | [], [] => false
  | [], _ :: _ => true
  | _ :: _, [] => false
  | a :: as, b :: bs =>
    if a.toNat < b.toNat then true
    else if b.toNat < a.toNat then false
    else charListLt as bs

/-- Lexicographic string comparison (ascending, by code point); models
ORDER BY on a TEXT expression. -/
def textLe (a b : String) : Bool :=
  !(charListLt b.data a.data)

/-- Store query behind the single-document GET path: select all rows whose
`metadata->>document_id` equals `id`, ordered ascending by the TEXT value
`metadata->>chunk_index` (see `chunkIndexKey`). -/
def getByDocumentId (db : List Row) (id : String) : List Row :=
  sortBy (fun a b => textLe (chunkIndexKey a) (chunkIndexKey b))
    (db.filter (fun r => r.metadata.document_id == id))

/-- Store delete behind the DELETE handler:
`.delete().eq('metadata->>document_id', id)` removes every row of the
document and reports how many rows matched (0 when nothing matched;
Postgres does not treat an empty delete as an error). -/
def deleteByDocumentId (db : List Row) (id : String) : List Row × Nat :=
  (db.filter (fun r => !(r.metadata.document_id == id)),
   (db.filter (fun r => r.metadata.document_id == id)).length)

/-- Outcome of the DELETE handler response body
(`{ success: true, fileDeleted }`, the 400 when no id is given, or an
error payload). -/
inductive DeleteResponse where
  | missingId
  | success (fileDeleted : Bool)
deriving DecidableEq

/-- Full outcome of one DELETE request: the response plus the resulting
database and object-storage states. -/
structure DeleteOutcome where
  response : DeleteResponse
  db : List Row
  objectStorage : List String
deriving DecidableEq

/-- The DELETE handler of `src/app/api/documents/route.ts`: reject a
missing id with status 400; otherwise look up the first chunk row of the
document (`.limit(1)`), take `file_path` from its metadata, remove that
path from object storage when present, then delete every chunk row of the
document and answer `{ success: true, fileDeleted: !!filePath }`.  Object
storage is modelled as the list of stored object keys. -/
def deleteEndpoint (db : List Row) (obj : List String) (idParam : Option String) :
    DeleteOutcome :=
  match idParam with
  | none => ⟨.missingId, db, obj⟩
  | some id =>
    let docs := (db.filter (fun r => r.metadata.document_id == id)).take 1
    let filePath := docs.head?.bind (fun r => r.metadata.file_path)
    let obj2 := match filePath with
      | some p => obj.filter (fun q => !(q == p))
      | none => obj
    ⟨.success filePath.isSome, (deleteByDocumentId db id).1, obj2⟩

/-- External calls a retrieval request can attempt, in order: the
embedding request for the query, the `match_documents` vector search, and
the chat-completion call. -/
inductive QEvent where
  | embed (query : String)
  | search
  | generate
deriving DecidableEq

/-- Oracles for the external services used by the retrieval route: the
embedding model, the `match_documents` RPC, and the completion model
(called with the assembled context and the query).  An `Except.error`
models a thrown exception or returned error object. -/
structure QueryEnv where
  embedRes : String → Except String (List Int)
  searchRes : List Int → Except String (List Row)
  genRes : String → String → Except String String

/-- Response body of the retrieval route: `{ answer, sources }` on
success, `{ error }` otherwise. -/
inductive QueryResponse where
  | answer (text : String) (sources : List Row)
  | error (msg : String)
deriving DecidableEq

/-- Context assembly of the retrieval route:
`results.map(r => r.content).join('\n---\n')`, the empty string for an
empty result list. -/
def contextOf (results : List Row) : String :=
  String.intercalate "\n---\n" (results.map (fun r => r.content))

/-- The POST handler of the query route: embed the raw query, run the
vector search, assemble the context, generate the answer.  The first
component is the trace of attempted external calls.  The handler performs
no validation of `query` before the embedding call. -/
def queryPOST (env : QueryEnv) (query : String) : List QEvent × QueryResponse :=
  match env.embedRes query with
  | .error e => ([.embed query], .error e)
  | .ok v =>
    match env.searchRes v with
    | .error e => ([.embed query, .search], .error e)
    | .ok results =>
      match env.genRes (contextOf results) query with
      | .error e => ([.embed query, .search, .generate], .error e)
      | .ok ans => ([.embed query, .search, .generate], .answer ans results)

/-- Escaping step of the percent-decoding fallback:
`str.replace(/%/g, '%25')` rewrites every percent sign to its own
percent-encoding. -/
def replacePercent (s : String) : String :=
  String.mk (s.data.foldr
    (fun c acc => if c = '%' then '%' :: '2' :: '5' :: acc else c :: acc) [])

/-- Percent-decoding fallback of the ingestion route, translated from
`safeDecodeURIComponent`: try `decodeURIComponent(str)`; if it throws,
try again on the string with every percent sign escaped; if that also
throws, return the input unchanged.  The JavaScript builtin
`decodeURIComponent` is external code and is passed in as the oracle `d`
(`none` models a throw); totality of the result is this definition's
type. -/
def safeDecodeURIComponent (d : String → Option String) (s : String) : String :=
  match d s with
  | some r => r
  | none =>
    match d (replacePercent s) with
    | some r => r
    | none => s

/-- Steps performed inside `extractTextFromFile`: materializing the file
buffer (`Buffer.from(await file.arrayBuffer())`), handing it to the PDF
parser, handing it to the DOCX parser, or decoding it as UTF-8 text. -/
inductive XEvent where
  | readBuffer
  | parsePdf
  | parseDocx
  | decodeTxt
deriving DecidableEq

/-- Oracles for the external parsers used by `extractTextFromFile`: the
pdf2json-based extraction, the mammoth DOCX extraction, and Node's
`buffer.toString('utf-8')` (which never throws, hence total). -/
structure ExtractEnv where
  pdfParse : List Nat → Except String String
  docxParse : List Nat → Except String String
  utf8 : List Nat → String

/-- Suffix test on character lists; models
`fileName.toLowerCase().endsWith(ext)`. -/
def hasSuffix (l suffix : List Char) : Bool :=
  Nat.ble suffix.length l.length && (l.drop (l.length - suffix.length) == suffix)

/-- Error message thrown for an undeclared format. -/
def unsupportedMsg : String :=
  "Unsupported file type. Please upload a PDF, DOCX, or TXT file."

/-- The `extractTextFromFile` function of the ingestion route.  It first
materializes the file buffer (the leading `.readBuffer` event, mirroring
that `Buffer.from(await file.arrayBuffer())` runs before the extension
check), then dispatches on the lower-cased filename suffix: `.pdf` to the
PDF parser, `.docx` to the DOCX parser, `.txt` to UTF-8 decoding, and
anything else to the unsupported-type error. -/
def extractTextFromFile (env : ExtractEnv) (fileName : String) (bytes : List Nat) :
    List XEvent × Except String String :=
  let lower := fileName.data.map Char.toLower
  if hasSuffix lower ".pdf".data then
    ([.readBuffer, .parsePdf], env.pdfParse bytes)
  else if hasSuffix lower ".docx".data then
    ([.readBuffer, .parseDocx], env.docxParse bytes)
  else if hasSuffix lower ".txt".data then
    ([.readBuffer, .decodeTxt], .ok (env.utf8 bytes))
  else
    ([.readBuffer], .error unsupportedMsg)

/-- Steps performed by the ingestion POST handler: the object-storage
upload, the text extraction, the chunk split, and per-chunk embedding
requests and database inserts. -/
inductive PEvent where
  | upload
  | extract
  | chunkSplit
  | embedChunk (i : Nat)
  | insertChunk (i : Nat)
deriving DecidableEq

/-- Blank-text guard of the ingestion route,
`!text || text.trim().length === 0`: true exactly when every character of
the string is whitespace (the empty string included), i.e. when trimming
leaves nothing. -/
def isBlank (s : String) : Bool :=
  s.data.all (fun c => c.isWhitespace)

/-- Split on the dot character, accumulator-based; together with
`extOf` this models `file.name.split('.')`. -/
def splitDotAux : List Char → List Char → List (List Char)
  | [], acc => [acc.reverse]
  | c :: rest, acc =>
    if c = '.' then acc.reverse :: splitDotAux rest [] else splitDotAux rest (c :: acc)

/-- Extension picked for the storage key:
`file.name.split('.').pop() || 'bin'` (the last dot-separated component,
or `bin` when that component is empty). -/
def extOf (name : String) : String :=
  match (splitDotAux name.data []).getLast? with
  | none => "bin"
  | some [] => "bin"
  | some e => String.mk e

/-- Error message returned with status 400 when extraction yields no
usable text (the spec's `EmptyContent` failure). -/
def emptyContentMsg : String :=
  "Could not extract text from file"

/-- Response body of the ingestion route: the success payload
`{ success, documentId, chunks, textLength, ... }` or an error payload. -/
inductive IngestResponse where
  | success (documentId : String) (chunks : Nat) (textLength : Nat)
  | error (msg : String)
deriving DecidableEq

/-- Row inserted for chunk `i` of a document: the chunk content plus the
metadata fields `{ document_id, chunk_index: i, total_chunks, file_path }`. -/
def mkRow (docId : String) (i total : Nat) (fp : String) (c : String) : Row :=
  ⟨c, ⟨docId, i, total, some fp⟩⟩

/-- The per-chunk loop of the ingestion route: for each chunk in index
order, request its embedding, then insert the row.  `insertRes i = some
msg` models the database insert of chunk `i` failing with `msg`; the loop
then returns the error response at once, leaving the rows already
appended in place.  The embedding call is modelled as total (its
exceptions are handled by the route's outer catch and are not the subject
of any claim); each attempted call is recorded in the trace. -/
def processChunks (insertRes : Nat → Option String) (docId : String) (total : Nat)
    (fp : String) : Nat → List String → List Row →
    List PEvent × Except String Unit × List Row
  | _, [], db => ([], .ok (), db)
  | i, c :: rest, db =>
    match insertRes i with
    | some msg => ([.embedChunk i, .insertChunk i], .error msg, db)
    | none =>
      let r := processChunks insertRes docId total fp (i + 1) rest
        (db ++ [mkRow docId i total fp c])
      (.embedChunk i :: .insertChunk i :: r.1, r.2.1, r.2.2)

/-- Ingestion steps after a successful object-storage upload: run
`extractTextFromFile` (its outcome is the `xres` argument), apply the
blank-text guard, split into chunks with `chunkSize = 800`,
`chunkOverlap = 100`, and run the per-chunk loop. -/
def ingestAfterUpload (insertRes : Nat → Option String) (docId fileName : String)
    (xres : Except String String) (db : List Row) :
    List PEvent × IngestResponse × List Row :=
  match xres with
  | .error msg => ([.upload, .extract], .error msg, db)
  | .ok text =>
    if isBlank text then ([.upload, .extract], .error emptyContentMsg, db)
    else
      let chunks := chunkText 800 100 text
      let fp := docId ++ "." ++ extOf fileName
      let r := processChunks insertRes docId chunks.length fp 0 chunks db
      match r.2.1 with
      | .error msg => ([.upload, .extract, .chunkSplit] ++ r.1, .error msg, r.2.2)
      | .ok _ =>
        ([.upload, .extract, .chunkSplit] ++ r.1,
         .success docId chunks.length text.length, r.2.2)

/-- The POST handler of the ingestion route: upload the raw file to
object storage (fatal on failure, before any extraction), then continue
with `ingestAfterUpload` on the extraction outcome. -/
def ingestPOST (xenv : ExtractEnv) (uploadRes : Except String Unit)
    (insertRes : Nat → Option String) (docId fileName : String) (bytes : List Nat)
    (db : List Row) : List PEvent × IngestResponse × List Row :=
  match uploadRes with
  | .error msg => ([.upload], .error ("Failed to store file: " ++ msg), db)
  | .ok _ =>
    ingestAfterUpload insertRes docId fileName
      (extractTextFromFile xenv fileName bytes).2 db

/-- Trace of the per-chunk loop from index `k` over `n` chunks:
embedding then insert, per chunk, in index order. -/
def ingestTrace : Nat → Nat → List PEvent
  | _, 0 => []
  | k, n + 1 => .embedChunk k :: .insertChunk k :: ingestTrace (k + 1) n

/-- Rows the per-chunk loop appends for the given chunk contents,
starting at index `k`. -/
def rowsFrom (docId : String) (total : Nat) (fp : String) :
    Nat → List String → List Row
  | _, [] => []
  | k, c :: rest => mkRow docId k total fp c :: rowsFrom docId total fp (k + 1) rest

/-- Store state with one document of eleven chunks (indices 0 to 10),
chunk `i` holding content `Ci`; used to exercise `getByDocumentId` on a
document with ten or more chunks. -/
def sampleStore : List Row :=
  (List.range 11).map (fun i => ⟨"C" ++ Nat.repr i, ⟨"d", i, 11, some "d.pdf"⟩⟩)

/-- Filtering a row list for a document id yields nothing when no row
carries that id. -/
lemma filter_match_eq_nil (db : List Row) (id : String)
    (h : ∀ r ∈ db, r.metadata.document_id ≠ id) :
    db.filter (fun r => r.metadata.document_id == id) = [] := by
  induction db with
  | nil => rfl
  | cons r t ih =>
    have hr : (r.metadata.document_id == id) = false := by
      simp [h r (by simp)]
    simp [List.filter_cons, hr, ih (fun x hx => h x (by simp [hx]))]

/-- Filtering a row list against a document id keeps everything when no
row carries that id. -/
lemma filter_nomatch_eq_self (db : List Row) (id : String)
    (h : ∀ r ∈ db, r.metadata.document_id ≠ id) :
    db.filter (fun r => !(r.metadata.document_id == id)) = db := by
  induction db with
  | nil => rfl
  | cons r t ih =>
    have hr : (r.metadata.document_id == id) = false := by
      simp [h r (by simp)]
    simp [List.filter_cons, hr, ih (fun x hx => h x (by simp [hx]))]

/-- After `deleteByDocumentId`, no row of the document remains. -/
lemma filter_after_delete (db : List Row) (id : String) :
    ((deleteByDocumentId db id).1).filter (fun r => r.metadata.document_id == id) = [] := by
  simp only [deleteByDocumentId]
  induction db with
  | nil => rfl
  | cons r t ih =>
    cases hb : (r.metadata.document_id == id) <;>
      simp [List.filter_cons, hb, ih]

/-- Unfolding equation of `chunkGo` at positive fuel. -/
lemma chunkGo_succ (size step fuel : Nat) (l : List Char) :
    chunkGo size step (fuel + 1) l =
      if l = [] then []
      else if l.length ≤ size then [l]
      else l.take size :: chunkGo size step fuel (l.drop step) := rfl

/-- The head of a nonempty chunk list is the whole input or its first
`size` characters. -/
lemma chunkGo_head (size step fuel : Nat) (l c : List Char) (t : List (List Char))
    (h : chunkGo size step fuel l = c :: t) : c = l ∨ c = l.take size := by
  cases fuel with
  | zero => simp [chunkGo] at h
  | succ f =>
    rw [chunkGo_succ] at h
    by_cases h0 : l = []
    · rw [if_pos h0] at h
      simp at h
    · rw [if_neg h0] at h
      by_cases h1 : l.length ≤ size
      · rw [if_pos h1] at h
        exact Or.inl (List.cons.inj h).1.symm
      · rw [if_neg h1] at h
        exact Or.inr (List.cons.inj h).1.symm

/-- With the route's parameters (size 800, step 700), the head of a chunk
list of an input longer than the overlap starts with the input's first
100 characters and is at least 100 characters long. -/
lemma chunkGo_head_shared (fuel : Nat) (l c : List Char) (t : List (List Char))
    (hl : 100 < l.length)
    (h : chunkGo 800 700 fuel l = c :: t) :
    c.take 100 = l.take 100 ∧ 100 ≤ c.length := by
  rcases chunkGo_head 800 700 fuel l c t h with rfl | rfl
  · exact ⟨rfl, le_of_lt hl⟩
  · constructor
    · rw [List.take_take]
      norm_num
    · rw [List.length_take]
      omega

/-- Adjacent chunks produced by `chunkGo 800 700` share their boundary:
the first chunk's last 100 characters are the second chunk's first 100
characters, and that shared block has length exactly 100. -/
lemma chunkGo_adjacent : ∀ (fuel : Nat) (l : List Char) (pre post : List (List Char))
    (c1 c2 : List Char),
    chunkGo 800 700 fuel l = pre ++ c1 :: c2 :: post →
    c1.drop 700 = c2.take 100 ∧ (c2.take 100).length = 100 := by
  intro fuel
  induction fuel with
  | zero =>
    intro l pre post c1 c2 h
    simp [chunkGo] at h
  | succ f ih =>
    intro l pre post c1 c2 h
    rw [chunkGo_succ] at h
    by_cases h0 : l = []
    · rw [if_pos h0] at h
      simp at h
    · rw [if_neg h0] at h
      by_cases h1 : l.length ≤ 800
      · rw [if_pos h1] at h
        have hlen := congrArg List.length h
        simp [List.length_append] at hlen
        omega
      · rw [if_neg h1] at h
        cases pre with
        | nil =>
          have h2 := List.cons.inj h
          have hlen : 100 < (l.drop 700).length := by
            rw [List.length_drop]
            omega
          have hd := chunkGo_head_shared f (l.drop 700) c2 post hlen h2.2
          constructor
          · rw [← h2.1, List.drop_take]
            exact hd.1.symm
          · rw [List.length_take]
            omega
        | cons p pre2 =>
          exact ih (l.drop 700) pre2 post c1 c2 (List.cons.inj h).2

/-- On a 1500-character text, the chunker with size 800 and overlap 100
produces exactly the slice at offset 0 of length 800 and the slice from
offset 700 to the end. -/
lemma chunkText_1500 (s : String) (hlen : s.data.length = 1500) :
    chunkText 800 100 s = [String.mk (s.data.take 800), String.mk (s.data.drop 700)] := by
  have hne : s.data ≠ [] := by
    intro hh
    rw [hh] at hlen
    exact absurd hlen (by decide)
  have hd : (s.data.drop 700).length = 800 := by
    rw [List.length_drop, hlen]
  have hdne : s.data.drop 700 ≠ [] := by
    intro hh
    rw [hh] at hd
    exact absurd hd (by decide)
  have h1 : chunkGo 800 700 1500 s.data =
      s.data.take 800 :: chunkGo 800 700 1499 (s.data.drop 700) := by
    rw [show (1500 : Nat) = 1499 + 1 from rfl, chunkGo_succ, if_neg hne, if_neg (by omega)]
  have h2 : chunkGo 800 700 1499 (s.data.drop 700) = [s.data.drop 700] := by
    rw [show (1499 : Nat) = 1498 + 1 from rfl, chunkGo_succ, if_neg hdne, if_pos (by omega)]
  show (chunkGo 800 (800 - 100) s.data.length s.data).map String.mk = _
  rw [hlen]
  show (chunkGo 800 700 1500 s.data).map String.mk = _
  rw [h1, h2]
  rfl

/-- C1: the claim states that `getByDocumentId` returns a document's
chunks ordered by `chunkIndex` ascending under numeric order, for every
document including those with 10 or more chunks, so that concatenating
the `content` fields reconstructs the extracted text.  The code orders by
`metadata->>chunk_index`, a TEXT value, so on a document with eleven
chunks the returned index order is 0, 1, 10, 2, ..., 9: not numeric
ascending, and the concatenation misplaces chunk 10.  This theorem
evaluates the embedded code at that failing input. -/
theorem c1_chunk_order_text_not_numeric :
    (getByDocumentId sampleStore "d").map (fun r => r.metadata.chunk_index) =
      [0, 1, 10, 2, 3, 4, 5, 6, 7, 8, 9] ∧
    (getByDocumentId sampleStore "d").map (fun r => r.metadata.chunk_index) ≠
      List.range 11 ∧
    String.join ((getByDocumentId sampleStore "d").map (fun r => r.content)) ≠
      String.join ((List.range 11).map (fun i => "C" ++ Nat.repr i)) :=
  ⟨rfl, by decide, by decide⟩

/-- C2 (counterexample): the claim states that an empty or
whitespace-only query is rejected with `InvalidQuery` before the
embedding service, the store search, or the generation service is called.
On the empty query, with all services succeeding, the handler in fact
calls all three services and returns a normal answer; no rejection
happens. -/
theorem c2_counterexample :
    isBlank "" = true ∧
    (queryPOST ⟨fun _ => .ok [0], fun _ => .ok [], fun _ _ => .ok "I do not know"⟩ "").1 =
      [.embed "", .search, .generate] ∧
    (queryPOST ⟨fun _ => .ok [0], fun _ => .ok [], fun _ _ => .ok "I do not know"⟩ "").2 =
      .answer "I do not know" [] :=
  ⟨rfl, rfl, rfl⟩

/-- C2 (amended): the retrieval pipeline performs no query validation:
for every query, including empty and whitespace-only ones, and for every
behaviour of the external services, the handler's first external call is
the embedding request carrying the raw query. -/
theorem c2_no_query_validation (env : QueryEnv) (q : String) :
    (queryPOST env q).1.head? = some (.embed q) := by
  unfold queryPOST
  cases henv : env.embedRes q with
  | error e => rfl
  | ok v =>
    cases hs : env.searchRes v with
    | error e => simp [hs]
    | ok res =>
      cases hg : env.genRes (contextOf res) q with
      | error e => simp [hs, hg]
      | ok a => simp [hs, hg]

/-- C3 (counterexample): the claim states that for an undeclared format
extraction fails with `UnsupportedFormat` before any byte of the file
buffer is touched.  The failure message is right, but the function's
first step is materializing the file buffer
(`Buffer.from(await file.arrayBuffer())` precedes the extension check),
so the buffer read does occur: at the concrete input `image.png` the
trace contains the buffer read. -/
theorem c3_counterexample :
    (extractTextFromFile ⟨fun _ => .ok "", fun _ => .ok "", fun _ => ""⟩
      "image.png" [1, 2, 3]).2 = .error unsupportedMsg ∧
    XEvent.readBuffer ∈ (extractTextFromFile ⟨fun _ => .ok "", fun _ => .ok "", fun _ => ""⟩
      "image.png" [1, 2, 3]).1 :=
  ⟨rfl, List.mem_singleton.mpr rfl⟩

/-- C3 (amended): for every file whose lower-cased name ends in none of
`.pdf`, `.docx`, `.txt`, extraction fails with `UnsupportedFormat`
without invoking any parser, and the outcome is independent of the
buffer contents; the file's bytes are however read into a buffer before
the extension check (the single `readBuffer` step in the trace). -/
theorem c3_unsupported_format (env : ExtractEnv) (name : String) (bytes : List Nat)
    (h1 : hasSuffix (name.data.map Char.toLower) ".pdf".data = false)
    (h2 : hasSuffix (name.data.map Char.toLower) ".docx".data = false)
    (h3 : hasSuffix (name.data.map Char.toLower) ".txt".data = false) :
    extractTextFromFile env name bytes = ([.readBuffer], .error unsupportedMsg) := by
  unfold extractTextFromFile
  simp [h1, h2, h3]

/-- C3 witness: the amended theorem applied to a concrete JPEG upload. -/
theorem c3_unsupported_format_witness :
    extractTextFromFile ⟨fun _ => .ok "", fun _ => .ok "", fun _ => ""⟩ "photo.jpg" [7] =
      ([.readBuffer], .error unsupportedMsg) :=
  c3_unsupported_format _ "photo.jpg" [7] (by decide) (by decide) (by decide)

/-- C4: every pair of chunks adjacent in index order shares at least 100
characters of the original text (with `chunkSize = 800`,
`overlap = 100`); in the sliding-window model the sharing is exact and
unconditional, so in particular the claim's allowance for a shorter
final pair is never needed: the first chunk's last 100 characters equal
the second chunk's first 100 characters, a block of length exactly 100,
for every adjacent pair. -/
theorem c4_adjacent_chunk_overlap (s : String) (pre post : List (List Char))
    (c1 c2 : List Char)
    (h : chunksOf 800 100 s = pre ++ c1 :: c2 :: post) :
    c1.drop 700 = c2.take 100 ∧ (c2.take 100).length = 100 := by
  have h2 : chunkGo 800 700 s.data.length s.data = pre ++ c1 :: c2 :: post := h
  exact chunkGo_adjacent s.data.length s.data pre post c1 c2 h2

set_option maxRecDepth 8000 in
/-- C4 witness: the overlap theorem applied to a 900-character text,
which splits into two adjacent chunks. -/
theorem c4_adjacent_chunk_overlap_witness :
    (List.replicate 800 'a').drop 700 = (List.replicate 200 'a').take 100 ∧
    ((List.replicate 200 'a').take 100).length = 100 :=
  c4_adjacent_chunk_overlap (String.mk (List.replicate 900 'a')) [] []
    (List.replicate 800 'a') (List.replicate 200 'a') (by decide)

/-- Per-chunk loop, all inserts succeeding: every chunk is embedded and
inserted, in index order, and all rows are appended in order. -/
lemma processChunks_ok (insertRes : Nat → Option String) (docId : String) (total : Nat)
    (fp : String) :
    ∀ (cs : List String) (k : Nat) (db : List Row),
    (∀ j, j < cs.length → insertRes (k + j) = none) →
    processChunks insertRes docId total fp k cs db =
      (ingestTrace k cs.length, .ok (), db ++ rowsFrom docId total fp k cs) := by
  intro cs
  induction cs with
  | nil =>
    intro k db _
    simp [processChunks, ingestTrace, rowsFrom]
  | cons c rest ih =>
    intro k db h
    have h0 : insertRes k = none := by simpa using h 0 (by simp)
    have harg : ∀ j, j < rest.length → insertRes (k + 1 + j) = none := by
      intro j hj
      have := h (j + 1) (by simp; omega)
      rwa [show k + (j + 1) = k + 1 + j by omega] at this
    simp only [processChunks, h0]
    rw [ih (k + 1) (db ++ [mkRow docId k total fp c]) harg]
    simp [ingestTrace, rowsFrom]

/-- Per-chunk loop, first insert failure at relative index `i`: the loop
stops right there, having attempted exactly the embeddings and inserts of
the chunks up to and including `i`, and the rows of the chunks before `i`
stay appended. -/
lemma processChunks_fail (insertRes : Nat → Option String) (docId : String) (total : Nat)
    (fp : String) (msg : String) :
    ∀ (cs : List String) (i k : Nat) (db : List Row),
    i < cs.length → (∀ j, j < i → insertRes (k + j) = none) →
    insertRes (k + i) = some msg →
    processChunks insertRes docId total fp k cs db =
      (ingestTrace k (i + 1), .error msg,
       db ++ rowsFrom docId total fp k (cs.take i)) := by
  intro cs
  induction cs with
  | nil =>
    intro i k db hi
    simp at hi
  | cons c rest ih =>
    intro i k db hi hprev hfail
    cases i with
    | zero =>
      have hk : insertRes k = some msg := by simpa using hfail
      simp [processChunks, hk, ingestTrace, rowsFrom]
    | succ i2 =>
      have h0 : insertRes k = none := by simpa using hprev 0 (by omega)
      have hprev2 : ∀ j, j < i2 → insertRes (k + 1 + j) = none := by
        intro j hj
        have := hprev (j + 1) (by omega)
        rwa [show k + (j + 1) = k + 1 + j by omega] at this
      have hfail2 : insertRes (k + 1 + i2) = some msg := by
        rwa [show k + (i2 + 1) = k + 1 + i2 by omega] at hfail
      simp only [processChunks, h0]
      rw [ih i2 (k + 1) (db ++ [mkRow docId k total fp c])
        (by simpa using Nat.lt_of_succ_lt_succ hi) hprev2 hfail2]
      simp [ingestTrace, rowsFrom, List.take_succ_cons]

/-- C5: during ingestion the chunks are embedded and inserted strictly
sequentially in index order (the trace is exactly embed 0, insert 0,
embed 1, insert 1, ...); when every insert succeeds all rows land in
order, and when the insert of chunk `i` is the first to fail the loop
returns the failure at once, no chunk beyond `i` is embedded or
inserted (the trace stops at index `i`), and the rows of chunks
`0..i-1` remain appended to the store, untouched. -/
theorem c5_sequential_loop_fail_fast (insertRes : Nat → Option String)
    (docId : String) (total : Nat) (fp : String) (cs : List String) (db : List Row) :
    ((∀ j, j < cs.length → insertRes j = none) →
      processChunks insertRes docId total fp 0 cs db =
        (ingestTrace 0 cs.length, .ok (), db ++ rowsFrom docId total fp 0 cs)) ∧
    (∀ i msg, i < cs.length → (∀ j, j < i → insertRes j = none) →
      insertRes i = some msg →
      processChunks insertRes docId total fp 0 cs db =
        (ingestTrace 0 (i + 1), .error msg,
         db ++ rowsFrom docId total fp 0 (cs.take i))) := by
  constructor
  · intro h
    exact processChunks_ok insertRes docId total fp cs 0 db (by simpa using h)
  · intro i msg hi hprev hfail
    exact processChunks_fail insertRes docId total fp msg cs i 0 db hi
      (by simpa using hprev) (by simpa using hfail)

/-- C5 witness: three chunks with the insert of chunk 1 failing; the
loop attempts exactly chunks 0 and 1 and keeps the row of chunk 0. -/
theorem c5_sequential_loop_witness :
    processChunks (fun n => if n = 1 then some "boom" else none) "d" 3 "d.txt" 0
      ["a", "b", "c"] [] =
      (ingestTrace 0 2, .error "boom",
       [] ++ rowsFrom "d" 3 "d.txt" 0 (["a", "b", "c"].take 1)) :=
  (c5_sequential_loop_fail_fast _ "d" 3 "d.txt" ["a", "b", "c"] []).2 1 "boom"
    (by decide) (by decide) (by decide)

/-- C6: ingesting a 1500-character plaintext file produces exactly two
chunks, the first of length 800 and the second of length at least 700
(it is 800), and the pipeline stores them with `chunk_index` 0 and 1 and
`total_chunks = 2` in both rows' metadata. -/
theorem c6_two_chunk_scenario (xenv : ExtractEnv) (bytes : List Nat) (docId : String)
    (db : List Row) (s : String)
    (hu : xenv.utf8 bytes = s)
    (hlen : s.data.length = 1500)
    (hb : isBlank s = false) :
    chunkText 800 100 s = [String.mk (s.data.take 800), String.mk (s.data.drop 700)] ∧
    (String.mk (s.data.take 800)).length = 800 ∧
    700 ≤ (String.mk (s.data.drop 700)).length ∧
    ingestPOST xenv (.ok ()) (fun _ => none) docId "doc.txt" bytes db =
      ([.upload, .extract, .chunkSplit, .embedChunk 0, .insertChunk 0,
        .embedChunk 1, .insertChunk 1],
       .success docId 2 s.length,
       db ++ [⟨String.mk (s.data.take 800), ⟨docId, 0, 2, some (docId ++ "." ++ "txt")⟩⟩,
              ⟨String.mk (s.data.drop 700), ⟨docId, 1, 2, some (docId ++ "." ++ "txt")⟩⟩]) := by
  have hchunks := chunkText_1500 s hlen
  have hl0 : (String.mk (s.data.take 800)).length = 800 := by
    show (s.data.take 800).length = 800
    rw [List.length_take, hlen]
    omega
  have hl1 : (String.mk (s.data.drop 700)).length = 800 := by
    show (s.data.drop 700).length = 800
    rw [List.length_drop, hlen]
  have e1 : hasSuffix ['d', 'o', 'c', '.', 't', 'x', 't'] ['.', 'p', 'd', 'f'] = false := by
    decide
  have e2 : hasSuffix ['d', 'o', 'c', '.', 't', 'x', 't'] ['.', 'd', 'o', 'c', 'x'] = false := by
    decide
  have e3 : hasSuffix ['d', 'o', 'c', '.', 't', 'x', 't'] ['.', 't', 'x', 't'] = true := by
    decide
  have hx : (extractTextFromFile xenv "doc.txt" bytes).2 = .ok s := by
    unfold extractTextFromFile
    simp [e1, e2, e3, hu]
  refine ⟨hchunks, hl0, by rw [hl1]; norm_num, ?_⟩
  show ingestAfterUpload (fun _ => none) docId "doc.txt"
      (extractTextFromFile xenv "doc.txt" bytes).2 db = _
  rw [hx]
  unfold ingestAfterUpload
  simp only [hb, hchunks]
  simp [processChunks, mkRow, show extOf "doc.txt" = "txt" from rfl]

set_option maxRecDepth 8000 in
/-- C6 witness: the scenario theorem applied to the concrete
1500-character text of letters `a`; the first stored chunk has length
800. -/
theorem c6_two_chunk_scenario_witness :
    (String.mk ((String.mk (List.replicate 1500 'a')).data.take 800)).length = 800 :=
  (c6_two_chunk_scenario
    ⟨fun _ => .error "", fun _ => .error "", fun _ => String.mk (List.replicate 1500 'a')⟩
    [] "doc1" [] (String.mk (List.replicate 1500 'a')) rfl (by decide) (by decide)).2.1

/-- C7: for every supported format, when extraction succeeds with an
empty or whitespace-only text, ingestion fails with the `EmptyContent`
error and the trace ends at the extraction step: the chunker, the
embedding service and the store insert are never invoked, and the store
is unchanged. -/
theorem c7_blank_text_aborts (xenv : ExtractEnv) (insertRes : Nat → Option String)
    (docId name : String) (bytes : List Nat) (db : List Row) (text : String)
    (hx : (extractTextFromFile xenv name bytes).2 = .ok text)
    (hb : isBlank text = true) :
    ingestPOST xenv (.ok ()) insertRes docId name bytes db =
      ([.upload, .extract], .error emptyContentMsg, db) := by
  show ingestAfterUpload insertRes docId name
    (extractTextFromFile xenv name bytes).2 db = _
  rw [hx]
  unfold ingestAfterUpload
  simp [hb]

/-- C7 witness: a `.txt` file whose extracted text is three spaces. -/
theorem c7_blank_text_aborts_witness :
    ingestPOST ⟨fun _ => .error "", fun _ => .error "", fun _ => "   "⟩ (.ok ())
      (fun _ => none) "doc1" "w.txt" [] [] =
      ([.upload, .extract], .error emptyContentMsg, []) :=
  c7_blank_text_aborts _ _ "doc1" "w.txt" [] [] "   " rfl rfl

/-- C8: the percent-decoding fallback never propagates an exception (it
is total for every behaviour of the underlying decoder) and returns the
decoder's result on the input when that succeeds, otherwise the
decoder's result on the percent-escaped input when that succeeds,
otherwise the input unchanged. -/
theorem c8_safe_decode_three_tiers (d : String → Option String) (s : String) :
    (∀ r, d s = some r → safeDecodeURIComponent d s = r) ∧
    (d s = none → ∀ r, d (replacePercent s) = some r → safeDecodeURIComponent d s = r) ∧
    (d s = none → d (replacePercent s) = none → safeDecodeURIComponent d s = s) := by
  refine ⟨?_, ?_, ?_⟩
  · intro r h
    simp [safeDecodeURIComponent, h]
  · intro h r h2
    simp [safeDecodeURIComponent, h, h2]
  · intro h h2
    simp [safeDecodeURIComponent, h, h2]

/-- C8 witness: the third tier on a decoder that always throws, and the
second tier on a decoder that succeeds only on the escaped string
`a%25b`. -/
theorem c8_safe_decode_witness :
    safeDecodeURIComponent (fun _ => none) "a%b" = "a%b" ∧
    safeDecodeURIComponent
      (fun t => if t = "a%25b" then some "a%b" else none) "a%b" = "a%b" :=
  ⟨(c8_safe_decode_three_tiers (fun _ => none) "a%b").2.2 rfl rfl,
   (c8_safe_decode_three_tiers (fun t => if t = "a%25b" then some "a%b" else none)
     "a%b").2.1 (by decide) "a%b" (by decide)⟩

/-- C9: after `deleteByDocumentId`, `getByDocumentId` on the same id
returns the empty sequence; a second delete succeeds with
`countDeleted = 0`; and deleting an id that was never ingested returns
0 and leaves the store unchanged — deletion is idempotent and never an
error. -/
theorem c9_delete_idempotent (db : List Row) (id : String) :
    getByDocumentId (deleteByDocumentId db id).1 id = [] ∧
    (deleteByDocumentId (deleteByDocumentId db id).1 id).2 = 0 ∧
    ((∀ r ∈ db, r.metadata.document_id ≠ id) →
      (deleteByDocumentId db id).2 = 0 ∧ (deleteByDocumentId db id).1 = db) := by
  refine ⟨?_, ?_, ?_⟩
  · rw [getByDocumentId, filter_after_delete]
    rfl
  · show (((deleteByDocumentId db id).1).filter
      (fun r => r.metadata.document_id == id)).length = 0
    rw [filter_after_delete]
    rfl
  · intro h
    constructor
    · show ((db.filter (fun r => r.metadata.document_id == id))).length = 0
      rw [filter_match_eq_nil db id h]
      rfl
    · show db.filter (fun r => !(r.metadata.document_id == id)) = db
      exact filter_nomatch_eq_self db id h

/-- C9 witness: a one-row store and a never-ingested id `b`. -/
theorem c9_delete_idempotent_witness :
    getByDocumentId (deleteByDocumentId [⟨"x", ⟨"a", 0, 1, none⟩⟩] "b").1 "b" = [] ∧
    (deleteByDocumentId (deleteByDocumentId [⟨"x", ⟨"a", 0, 1, none⟩⟩] "b").1 "b").2 = 0 ∧
    (deleteByDocumentId [⟨"x", ⟨"a", 0, 1, none⟩⟩] "b").2 = 0 ∧
    (deleteByDocumentId [⟨"x", ⟨"a", 0, 1, none⟩⟩] "b").1 = [⟨"x", ⟨"a", 0, 1, none⟩⟩] := by
  have h := c9_delete_idempotent [⟨"x", ⟨"a", 0, 1, none⟩⟩] "b"
  have h3 := h.2.2 (by decide)
  exact ⟨h.1, h.2.1, h3.1, h3.2⟩

/-- C10: the DELETE endpoint removes a raw file from object storage only
when the first chunk row found for the id carries a `file_path`; when
the first found row carries none, object storage is untouched and the
response reports `fileDeleted = false`; in particular for an id with no
chunk rows at all (for example an ingestion that failed before any
insert) the endpoint still reports success with `fileDeleted = false`,
performs no object-storage removal (any uploaded file stays in place),
and leaves the database unchanged. -/
theorem c10_delete_without_rows (db : List Row) (obj : List String) (id : String) :
    ((((db.filter (fun r => r.metadata.document_id == id)).take 1).head?.bind
        (fun r => r.metadata.file_path)) = none →
      (deleteEndpoint db obj (some id)).response = .success false ∧
      (deleteEndpoint db obj (some id)).objectStorage = obj) ∧
    ((∀ r ∈ db, r.metadata.document_id ≠ id) →
      (deleteEndpoint db obj (some id)).response = .success false ∧
      (deleteEndpoint db obj (some id)).objectStorage = obj ∧
      (deleteEndpoint db obj (some id)).db = db) := by
  constructor
  · intro h
    constructor <;> simp [deleteEndpoint, h]
  · intro h
    have hnil := filter_match_eq_nil db id h
    refine ⟨?_, ?_, ?_⟩ <;>
      simp [deleteEndpoint, hnil, deleteByDocumentId, filter_nomatch_eq_self db id h]

/-- C10 witness: deleting id `ghost`, which has no chunk rows, while an
orphaned upload `ghost.pdf` sits in object storage: success with
`fileDeleted = false` and the file stays. -/
theorem c10_delete_without_rows_witness :
    (deleteEndpoint [⟨"c", ⟨"other", 0, 1, some "other.pdf"⟩⟩] ["ghost.pdf", "other.pdf"]
      (some "ghost")).response = .success false ∧
    (deleteEndpoint [⟨"c", ⟨"other", 0, 1, some "other.pdf"⟩⟩] ["ghost.pdf", "other.pdf"]
      (some "ghost")).objectStorage = ["ghost.pdf", "other.pdf"] ∧
    (deleteEndpoint [⟨"c", ⟨"other", 0, 1, some "other.pdf"⟩⟩] ["ghost.pdf", "other.pdf"]
      (some "ghost")).db = [⟨"c", ⟨"other", 0, 1, some "other.pdf"⟩⟩] :=
  (c10_delete_without_rows _ _ _).2 (by decide)
